import Mathlib

set_option linter.unusedSectionVars false

/-!
# Verification of `GeneratorDataManager`

Shallow embedding of the class `Qt3DRender::Render::GeneratorDataManager`
from `include/Qt3DRender/5.11.1/Qt3DRender/private/texturedatamanager_p.h`.

The C++ class keeps `QVector<Entry> m_data`, where each `Entry` holds a
`GeneratorPtr generator` (a shared pointer to a generator object), a
`QVector<ReferencedType> referencingObjects` and a `DataPtr data` (a shared
pointer that may be null).  All lookups compare generators by value:
`*entry.generator == *generator`.

The embedding models a shared pointer to a generator as a pair of a pointer
identity (`addr`) and the pointed-to value (`val`); a nullable `DataPtr` is
modelled as `Option D`; `QVector<Entry> m_data` is a `List (Entry V R D)`;
each C++ member function becomes a function from the state (plus arguments)
to its result and/or the new state, translated loop by loop.
-/

namespace TextureDataManager

/-- Model of a `GeneratorPtr` (a `QSharedPointer` to a generator object):
`addr` is the pointer identity, `val` the pointed-to generator value.
The C++ dereferenced comparison `*p == *q` is `p.val = q.val`.  Comparison of
the shared pointers themselves (`p == q`, used by `QVector::contains` in
`pendingGenerators`) holds exactly when both refer to the same object, which
on states arising from a C++ heap (where the address determines the object)
is structural equality of this pair. -/
structure GenPtr (V : Type) where
  addr : Nat
  val : V
deriving DecidableEq

/-- The C++ `struct Entry { GeneratorPtr generator; QVector<ReferencedType>
referencingObjects; DataPtr data; }`; the nullable `DataPtr` is `Option D`. -/
structure Entry (V R D : Type) where
  generator : GenPtr V
  referencingObjects : List R
  data : Option D
deriving DecidableEq

/-- The manager state, `QVector<Entry> m_data`. -/
abbrev State (V R D : Type) := List (Entry V R D)

variable {V R D : Type} [DecidableEq V] [DecidableEq R] [DecidableEq D]

/-- `findEntry`: scan `m_data` in index order and return the first `Entry`
whose generator compares value-equal (`*m_data[i].generator == *generator`),
`nullptr` (here `none`) otherwise. -/
def findEntry : State V R D → GenPtr V → Option (Entry V R D)
  | [], _ => none
  | e :: es, g => if e.generator.val = g.val then some e else findEntry es g

/-- The referencer insertion step of `requestData`:
`if (!entry->referencingObjects.contains(r)) entry->referencingObjects.push_back(r)`. -/
def addRef (e : Entry V R D) (r : R) : Entry V R D :=
  if r ∈ e.referencingObjects then e
  else { e with referencingObjects := e.referencingObjects ++ [r] }

/-- `requestData(generator, r)`: look up the entry for `generator`
(value-equality); when absent, `createEntry` appends a fresh `Entry`
(generator stored as given, no referencers, null data) at the back; then the
referencer `r` is pushed onto the (found or created) entry unless already
present.  Returns `needsToBeCreated` together with the new state. -/
def requestData : State V R D → GenPtr V → R → Bool × State V R D
  | [], g, r => (true, [addRef { generator := g, referencingObjects := [], data := none } r])
  | e :: es, g, r =>
    if e.generator.val = g.val then (false, addRef e r :: es)
    else
      let p := requestData es g r
      (p.1, e :: p.2)

/-- `releaseData(generator, r)`: iterate over `m_data`; at each entry whose
generator is value-equal, `removeAll(r)` on its referencers; if the set became
empty, erase the entry and `return` (stopping the loop), otherwise keep
iterating. -/
def releaseData : State V R D → GenPtr V → R → State V R D
  | [], _, _ => []
  | e :: es, g, r =>
    if e.generator.val = g.val then
      let refs := e.referencingObjects.filter (fun x => decide (x ≠ r))
      if refs.isEmpty then es
      else { e with referencingObjects := refs } :: releaseData es g r
    else e :: releaseData es g r

/-- `getData(generator)`: the found entry's `data`, or a null `DataPtr()`. -/
def getData (s : State V R D) (g : GenPtr V) : Option D :=
  match findEntry s g with
  | some e => e.data
  | none => none

/-- Loop body accumulator of `pendingGenerators`: push `entry.generator`
onto `ret` when `!entry.data && !ret.contains(entry.generator)`
(`QVector::contains` compares the shared pointers themselves). -/
def pendingGo : State V R D → List (GenPtr V) → List (GenPtr V)
  | [], ret => ret
  | e :: es, ret =>
    pendingGo es (if e.data = none ∧ e.generator ∉ ret then ret ++ [e.generator] else ret)

/-- `pendingGenerators()`: all generators of entries whose `data` is still
null, each pushed at most once. -/
def pendingGenerators (s : State V R D) : List (GenPtr V) :=
  pendingGo s []

/-- `assignData(generator, data)`: find the entry by value-equality; when
absent, emit the `qWarning` diagnostic (modelled by the returned `Bool` being
`true`) and leave the state unchanged; otherwise overwrite `entry->data` with
the given `data`. -/
def assignData : State V R D → GenPtr V → Option D → State V R D × Bool
  | [], _, _ => ([], true)
  | e :: es, g, d =>
    if e.generator.val = g.val then ({ e with data := d } :: es, false)
    else
      let p := assignData es g d
      (e :: p.1, p.2)

/-- `contains(generator)`: `findEntry(generator) != nullptr`. -/
def contains (s : State V R D) (g : GenPtr V) : Bool :=
  (findEntry s g).isSome

/-- The public interface of the manager, one constructor per member function,
used to state frame properties uniformly. -/
inductive OpCall (V R D : Type) where
  | requestData (g : GenPtr V) (r : R)
  | releaseData (g : GenPtr V) (r : R)
  | getData (g : GenPtr V)
  | pendingGenerators
  | assignData (g : GenPtr V) (d : Option D)
  | contains (g : GenPtr V)

/-- Result of a public operation. -/
inductive OpResult (V R D : Type) where
  | created (b : Bool)
  | unit
  | dataRes (d : Option D)
  | gens (l : List (GenPtr V))
  | boolRes (b : Bool)

/-- One public call: its result and the state of `m_data` afterwards.  The
bodies of `getData`, `pendingGenerators` and `contains` perform no write to
`m_data`, so those cases return the state unchanged. -/
def runOp : OpCall V R D → State V R D → OpResult V R D × State V R D
  | .requestData g r, s => ((OpResult.created (requestData s g r).1), (requestData s g r).2)
  | .releaseData g r, s => (OpResult.unit, releaseData s g r)
  | .getData g, s => (OpResult.dataRes (getData s g), s)
  | .pendingGenerators, s => (OpResult.gens (pendingGenerators s), s)
  | .assignData g d, s => (OpResult.unit, (assignData s g d).1)
  | .contains g, s => (OpResult.boolRes (contains s g), s)

/-- Well-formedness invariant of the cache: the generator values of the
entries are pairwise distinct (at most one `Entry` per generator value). -/
def wf (s : State V R D) : Prop :=
  (s.map fun e => e.generator.val).Nodup

/-!  ## Basic lemmas about `findEntry`  -/

theorem findEntry_eq_none_iff (s : State V R D) (g : GenPtr V) :
    findEntry s g = none ↔ ∀ e ∈ s, e.generator.val ≠ g.val := by
  induction s with
  | nil => simp [findEntry]
  | cons e es ih =>
    by_cases h : e.generator.val = g.val <;> simp [findEntry, h, ih]

theorem findEntry_append_of_none (s t : State V R D) (g : GenPtr V)
    (h : findEntry s g = none) : findEntry (s ++ t) g = findEntry t g := by
  induction s with
  | nil => simp
  | cons e es ih =>
    by_cases he : e.generator.val = g.val
    · simp [findEntry, he] at h
    · simp [findEntry, he] at h ⊢
      exact ih h

theorem findEntry_val_congr (s : State V R D) (g1 g2 : GenPtr V)
    (h : g1.val = g2.val) : findEntry s g1 = findEntry s g2 := by
  induction s with
  | nil => rfl
  | cons e es ih => simp [findEntry, h, ih]

/-!  ## C1 : `requestData` returns `true` iff a new `Entry` was created  -/

theorem requestData_fst (s : State V R D) (g : GenPtr V) (r : R) :
    (requestData s g r).1 = (findEntry s g).isNone := by
  induction s with
  | nil => rfl
  | cons e es ih =>
    by_cases h : e.generator.val = g.val <;> simp [requestData, findEntry, h, ih]

theorem requestData_length (s : State V R D) (g : GenPtr V) (r : R) :
    (requestData s g r).2.length =
      if findEntry s g = none then s.length + 1 else s.length := by
  induction s with
  | nil => simp [requestData, findEntry]
  | cons e es ih =>
    by_cases h : e.generator.val = g.val
    · simp [requestData, findEntry, h]
    · simp [requestData, findEntry, h, ih]
      by_cases h2 : findEntry es g = none <;> simp [h2]

/-- C1: `requestData(g, r)` returns `true` if and only if no `Entry` whose
generator compares value-equal to `g` existed in the cache before the call;
equivalently, exactly when the call appended a new `Entry` (the state grows by
one entry), while a reused `Entry` (pending or completed) leaves the length
unchanged and yields `false`. -/
theorem requestData_true_iff_new (s : State V R D) (g : GenPtr V) (r : R) :
    ((requestData s g r).1 = (findEntry s g).isNone) ∧
    ((requestData s g r).2.length =
      if findEntry s g = none then s.length + 1 else s.length) := by
  exact ⟨requestData_fst s g r, requestData_length s g r⟩

/-!  ## Shape lemmas for the mutating operations  -/

theorem addRef_generator (e : Entry V R D) (r : R) :
    (addRef e r).generator = e.generator := by
  unfold addRef; split <;> rfl

theorem addRef_data (e : Entry V R D) (r : R) : (addRef e r).data = e.data := by
  unfold addRef; split <;> rfl

theorem addRef_refs_ne_nil (e : Entry V R D) (r : R) :
    (addRef e r).referencingObjects ≠ [] := by
  unfold addRef
  split
  · rename_i h
    intro hnil
    rw [hnil] at h
    simp at h
  · simp

theorem requestData_snd_of_none (s : State V R D) (g : GenPtr V) (r : R)
    (h : findEntry s g = none) :
    (requestData s g r).2 =
      s ++ [{ generator := g, referencingObjects := [r], data := none }] := by
  induction s with
  | nil => simp [requestData, addRef]
  | cons e es ih =>
    by_cases he : e.generator.val = g.val
    · simp [findEntry, he] at h
    · simp [findEntry, he] at h
      simp [requestData, he, ih h]

theorem requestData_found (s : State V R D) (E : Entry V R D) (g : GenPtr V) (r : R)
    (hs : ∀ e ∈ s, e.generator.val ≠ g.val) (hE : E.generator.val = g.val) :
    requestData (s ++ [E]) g r = (false, s ++ [addRef E r]) := by
  induction s with
  | nil => simp [requestData, hE]
  | cons e es ih =>
    have he : e.generator.val ≠ g.val := hs e (by simp)
    have ht : ∀ e' ∈ es, e'.generator.val ≠ g.val := fun e' h' => hs e' (by simp [h'])
    simp [requestData, he, ih ht]

theorem releaseData_of_none (s : State V R D) (g : GenPtr V) (r : R)
    (hs : ∀ e ∈ s, e.generator.val ≠ g.val) :
    releaseData s g r = s := by
  induction s with
  | nil => rfl
  | cons e es ih =>
    have he : e.generator.val ≠ g.val := hs e (by simp)
    have ht : ∀ e' ∈ es, e'.generator.val ≠ g.val := fun e' h' => hs e' (by simp [h'])
    simp [releaseData, he, ih ht]

theorem releaseData_cons_match (e : Entry V R D) (es : State V R D) (g : GenPtr V) (r : R)
    (he : e.generator.val = g.val) :
    releaseData (e :: es) g r =
      if (e.referencingObjects.filter (fun x => decide (x ≠ r))).isEmpty then es
      else { e with referencingObjects :=
        e.referencingObjects.filter (fun x => decide (x ≠ r)) } :: releaseData es g r := by
  simp [releaseData, he]

theorem releaseData_cons_nomatch (e : Entry V R D) (es : State V R D) (g : GenPtr V) (r : R)
    (he : ¬ e.generator.val = g.val) :
    releaseData (e :: es) g r = e :: releaseData es g r := by
  simp [releaseData, he]

theorem releaseData_found (s : State V R D) (E : Entry V R D) (g : GenPtr V) (r : R)
    (hs : ∀ e ∈ s, e.generator.val ≠ g.val) (hE : E.generator.val = g.val) :
    releaseData (s ++ [E]) g r =
      if (E.referencingObjects.filter (fun x => decide (x ≠ r))).isEmpty then s
      else s ++ [{ E with
        referencingObjects := E.referencingObjects.filter (fun x => decide (x ≠ r)) }] := by
  induction s with
  | nil =>
    rw [List.nil_append, releaseData_cons_match E [] g r hE]
    split <;> simp [releaseData]
  | cons e es ih =>
    have he : e.generator.val ≠ g.val := hs e (by simp)
    have ht : ∀ e' ∈ es, e'.generator.val ≠ g.val := fun e' h' => hs e' (by simp [h'])
    rw [List.cons_append, releaseData_cons_nomatch e (es ++ [E]) g r he, ih ht]
    split <;> rfl

theorem assignData_of_none (s : State V R D) (g : GenPtr V) (d : Option D)
    (h : findEntry s g = none) :
    assignData s g d = (s, true) := by
  induction s with
  | nil => rfl
  | cons e es ih =>
    by_cases he : e.generator.val = g.val
    · simp [findEntry, he] at h
    · simp [findEntry, he] at h
      simp [assignData, he, ih h]

theorem assignData_found (s : State V R D) (E : Entry V R D) (g : GenPtr V) (d : Option D)
    (hs : ∀ e ∈ s, e.generator.val ≠ g.val) (hE : E.generator.val = g.val) :
    assignData (s ++ [E]) g d = (s ++ [{ E with data := d }], false) := by
  induction s with
  | nil => simp [assignData, hE]
  | cons e es ih =>
    have he : e.generator.val ≠ g.val := hs e (by simp)
    have ht : ∀ e' ∈ es, e'.generator.val ≠ g.val := fun e' h' => hs e' (by simp [h'])
    simp [assignData, he, ih ht]

theorem findEntry_append_singleton (s : State V R D) (E : Entry V R D) (g : GenPtr V)
    (hs : findEntry s g = none) (hE : E.generator.val = g.val) :
    findEntry (s ++ [E]) g = some E := by
  rw [findEntry_append_of_none s [E] g hs]
  simp [findEntry, hE]

/-!  ## Preservation of the well-formedness invariant  -/

theorem requestData_vals (s : State V R D) (g : GenPtr V) (r : R) :
    (requestData s g r).2.map (fun e => e.generator.val) =
      if findEntry s g = none then (s.map fun e => e.generator.val) ++ [g.val]
      else s.map fun e => e.generator.val := by
  induction s with
  | nil => simp [requestData, findEntry, addRef]
  | cons e es ih =>
    by_cases he : e.generator.val = g.val
    · simp [requestData, findEntry, he, addRef_generator]
    · by_cases h2 : findEntry es g = none
      · simp [requestData, findEntry, he, h2, ih]
      · simp [requestData, findEntry, he, h2, ih]

theorem releaseData_vals_sublist (s : State V R D) (g : GenPtr V) (r : R) :
    ((releaseData s g r).map fun e => e.generator.val).Sublist
      (s.map fun e => e.generator.val) := by
  induction s with
  | nil => simp [releaseData]
  | cons e es ih =>
    by_cases he : e.generator.val = g.val
    · rw [releaseData_cons_match e es g r he]
      split
      · rw [List.map_cons]
        exact List.sublist_cons_self _ _
      · rw [List.map_cons, List.map_cons]
        exact List.Sublist.cons₂ _ ih
    · rw [releaseData_cons_nomatch e es g r he, List.map_cons, List.map_cons]
      exact List.Sublist.cons₂ _ ih

theorem assignData_vals (s : State V R D) (g : GenPtr V) (d : Option D) :
    (assignData s g d).1.map (fun e => e.generator.val) =
      s.map fun e => e.generator.val := by
  induction s with
  | nil => rfl
  | cons e es ih =>
    by_cases he : e.generator.val = g.val <;> simp [assignData, he, ih]

theorem wf_runOp (s : State V R D) (c : OpCall V R D) (hwf : wf s) :
    wf (runOp c s).2 := by
  cases c with
  | requestData g r =>
    simp only [runOp, wf, requestData_vals]
    split
    · rename_i h
      rw [findEntry_eq_none_iff] at h
      refine List.Nodup.append hwf (by simp) ?_
      intro x hx hx2
      rw [List.mem_singleton] at hx2
      rw [List.mem_map] at hx
      obtain ⟨e, he, hev⟩ := hx
      exact h e he (by rw [hev, hx2])
    · exact hwf
  | releaseData g r => exact (releaseData_vals_sublist s g r).nodup hwf
  | getData g => exact hwf
  | pendingGenerators => exact hwf
  | assignData g d => simpa [runOp, wf, assignData_vals] using hwf
  | contains g => exact hwf

/-!  ## C2 : at most one Entry per distinct generator value  -/

/-- C2: the well-formedness invariant (at most one `Entry` per generator
value) is preserved by every public operation; and for value-equal but
distinct generator handles `g1`, `g2`, `requestData(g1, r1)` on a cache with
no value-equal entry followed by `requestData(g2, r2)` creates exactly one
`Entry` with that generator value, the second call returns `false`, and both
`contains(g1)` and `contains(g2)` are `true` afterwards. -/
theorem unique_entry_per_generator_value (s : State V R D) (c : OpCall V R D)
    (g1 g2 : GenPtr V) (r1 r2 : R) (hwf : wf s) (hval : g1.val = g2.val)
    (hfresh : findEntry s g1 = none) :
    wf (runOp c s).2 ∧
    (requestData s g1 r1).1 = true ∧
    (requestData (requestData s g1 r1).2 g2 r2).1 = false ∧
    ((requestData (requestData s g1 r1).2 g2 r2).2.countP
      fun e => decide (e.generator.val = g1.val)) = 1 ∧
    contains (requestData (requestData s g1 r1).2 g2 r2).2 g1 = true ∧
    contains (requestData (requestData s g1 r1).2 g2 r2).2 g2 = true := by
  have hs : ∀ e ∈ s, e.generator.val ≠ g1.val := (findEntry_eq_none_iff s g1).mp hfresh
  have hs2 : ∀ e ∈ s, e.generator.val ≠ g2.val := fun e he => hval ▸ hs e he
  have h1 : (requestData s g1 r1).2 =
      s ++ [{ generator := g1, referencingObjects := [r1], data := none }] :=
    requestData_snd_of_none s g1 r1 hfresh
  have hE : ({ generator := g1, referencingObjects := [r1], data := none } :
      Entry V R D).generator.val = g2.val := hval
  have h2 : requestData (requestData s g1 r1).2 g2 r2 =
      (false, s ++ [addRef { generator := g1, referencingObjects := [r1], data := none } r2]) := by
    rw [h1]
    exact requestData_found s _ g2 r2 hs2 hE
  refine ⟨wf_runOp s c hwf, ?_, ?_, ?_, ?_, ?_⟩
  · rw [requestData_fst, hfresh]; rfl
  · rw [h2]
  · rw [h2]
    simp only [List.countP_append]
    have hz : (s.countP fun e => decide (e.generator.val = g1.val)) = 0 := by
      rw [List.countP_eq_zero]
      intro e he
      simp [hs e he]
    rw [hz]
    simp [List.countP_cons, addRef_generator]
  · rw [h2]
    simp only [contains]
    rw [findEntry_append_singleton s _ g1 hfresh (by simp [addRef_generator])]
    rfl
  · rw [h2]
    simp only [contains]
    have hfresh2 : findEntry s g2 = none := (findEntry_eq_none_iff s g2).mpr hs2
    rw [findEntry_append_singleton s _ g2 hfresh2 (by simp [addRef_generator, hval])]
    rfl

/-- Witness for `unique_entry_per_generator_value` at a concrete input. -/
theorem unique_entry_per_generator_value_witness :
    wf ([] : State Nat Nat Nat) ∧ (GenPtr.mk 0 5 : GenPtr Nat).val = (GenPtr.mk 1 5).val ∧
    findEntry ([] : State Nat Nat Nat) (GenPtr.mk 0 5) = none ∧
    (wf (runOp (OpCall.contains (GenPtr.mk 0 5)) ([] : State Nat Nat Nat)).2 ∧
     (requestData ([] : State Nat Nat Nat) (GenPtr.mk 0 5) 7).1 = true ∧
     (requestData (requestData ([] : State Nat Nat Nat) (GenPtr.mk 0 5) 7).2 (GenPtr.mk 1 5) 8).1 = false ∧
     ((requestData (requestData ([] : State Nat Nat Nat) (GenPtr.mk 0 5) 7).2 (GenPtr.mk 1 5) 8).2.countP
       fun e => decide (e.generator.val = (GenPtr.mk 0 5 : GenPtr Nat).val)) = 1 ∧
     contains (requestData (requestData ([] : State Nat Nat Nat) (GenPtr.mk 0 5) 7).2 (GenPtr.mk 1 5) 8).2 (GenPtr.mk 0 5) = true ∧
     contains (requestData (requestData ([] : State Nat Nat Nat) (GenPtr.mk 0 5) 7).2 (GenPtr.mk 1 5) 8).2 (GenPtr.mk 1 5) = true) :=
  ⟨by simp [wf], rfl, rfl,
    unique_entry_per_generator_value [] (OpCall.contains (GenPtr.mk 0 5))
      (GenPtr.mk 0 5) (GenPtr.mk 1 5) 7 8 (by simp [wf]) rfl rfl⟩

/-!  ## Unfolding lemmas for `requestData` and `assignData`  -/

theorem requestData_cons_match (e : Entry V R D) (es : State V R D) (g : GenPtr V) (r : R)
    (he : e.generator.val = g.val) :
    requestData (e :: es) g r = (false, addRef e r :: es) := by
  simp [requestData, he]

theorem requestData_cons_nomatch (e : Entry V R D) (es : State V R D) (g : GenPtr V) (r : R)
    (he : ¬ e.generator.val = g.val) :
    requestData (e :: es) g r = ((requestData es g r).1, e :: (requestData es g r).2) := by
  simp [requestData, he]

theorem assignData_cons_match (e : Entry V R D) (es : State V R D) (g : GenPtr V) (d : Option D)
    (he : e.generator.val = g.val) :
    assignData (e :: es) g d = ({ e with data := d } :: es, false) := by
  simp [assignData, he]

theorem assignData_cons_nomatch (e : Entry V R D) (es : State V R D) (g : GenPtr V) (d : Option D)
    (he : ¬ e.generator.val = g.val) :
    assignData (e :: es) g d = (e :: (assignData es g d).1, (assignData es g d).2) := by
  simp [assignData, he]

/-!  ## C3 : an Entry exists iff some referencer holds it  -/

/-- The referencer half of the C3 invariant: every entry of the cache has a
non-empty referencer set. -/
def refsNonempty (s : State V R D) : Prop :=
  ∀ e ∈ s, e.referencingObjects ≠ []

theorem refsNonempty_requestData (s : State V R D) (g : GenPtr V) (r : R)
    (h : refsNonempty s) : refsNonempty (requestData s g r).2 := by
  induction s with
  | nil =>
    intro e' he'
    simp only [requestData, List.mem_singleton] at he'
    rw [he']
    exact addRef_refs_ne_nil _ _
  | cons e es ih =>
    have ht : refsNonempty es := fun e' h' => h e' (List.mem_cons_of_mem _ h')
    by_cases he : e.generator.val = g.val
    · rw [requestData_cons_match e es g r he]
      intro e' he'
      rcases List.mem_cons.mp he' with h1 | h1
      · rw [h1]; exact addRef_refs_ne_nil _ _
      · exact ht e' h1
    · rw [requestData_cons_nomatch e es g r he]
      intro e' he'
      rcases List.mem_cons.mp he' with h1 | h1
      · rw [h1]; exact h e (List.mem_cons_self _ _)
      · exact ih ht e' h1

theorem refsNonempty_releaseData (s : State V R D) (g : GenPtr V) (r : R)
    (h : refsNonempty s) : refsNonempty (releaseData s g r) := by
  induction s with
  | nil => simpa [releaseData] using h
  | cons e es ih =>
    have ht : refsNonempty es := fun e' h' => h e' (List.mem_cons_of_mem _ h')
    by_cases he : e.generator.val = g.val
    · rw [releaseData_cons_match e es g r he]
      split
      · exact ht
      · rename_i hne
        intro e' he'
        rcases List.mem_cons.mp he' with h1 | h1
        · rw [h1]
          simpa [List.isEmpty_iff] using hne
        · exact ih ht e' h1
    · rw [releaseData_cons_nomatch e es g r he]
      intro e' he'
      rcases List.mem_cons.mp he' with h1 | h1
      · rw [h1]; exact h e (List.mem_cons_self _ _)
      · exact ih ht e' h1

theorem refsNonempty_assignData (s : State V R D) (g : GenPtr V) (d : Option D)
    (h : refsNonempty s) : refsNonempty (assignData s g d).1 := by
  induction s with
  | nil => simpa [assignData] using h
  | cons e es ih =>
    have ht : refsNonempty es := fun e' h' => h e' (List.mem_cons_of_mem _ h')
    by_cases he : e.generator.val = g.val
    · rw [assignData_cons_match e es g d he]
      intro e' he'
      rcases List.mem_cons.mp he' with h1 | h1
      · rw [h1]; exact h e (List.mem_cons_self _ _)
      · exact ht e' h1
    · rw [assignData_cons_nomatch e es g d he]
      intro e' he'
      rcases List.mem_cons.mp he' with h1 | h1
      · rw [h1]; exact h e (List.mem_cons_self _ _)
      · exact ih ht e' h1

theorem refsNonempty_runOp (s : State V R D) (c : OpCall V R D)
    (h : refsNonempty s) : refsNonempty (runOp c s).2 := by
  cases c with
  | requestData g r => exact refsNonempty_requestData s g r h
  | releaseData g r => exact refsNonempty_releaseData s g r h
  | getData g => exact h
  | pendingGenerators => exact h
  | assignData g d => exact refsNonempty_assignData s g d h
  | contains g => exact h

/-- C3: every public operation keeps every entry's referencer set non-empty
(so an `Entry` exists only while referenced), `requestData` leaves the touched
entry holding the requesting referencer, and after `requestData(g, r1)`,
`requestData(g, r2)` the call `releaseData(g, r1)` leaves the entry present
(`contains` true) while the subsequent `releaseData(g, r2)` — emptying the
referencer set — removes it (`contains` false). -/
theorem entry_exists_iff_referenced (s : State V R D) (c : OpCall V R D)
    (g : GenPtr V) (r1 r2 : R) (hne : refsNonempty s)
    (hfresh : findEntry s g = none) (hr : r1 ≠ r2) :
    refsNonempty (runOp c s).2 ∧
    (∃ e, findEntry (requestData s g r1).2 g = some e ∧ r1 ∈ e.referencingObjects) ∧
    contains (releaseData (requestData (requestData s g r1).2 g r2).2 g r1) g = true ∧
    contains (releaseData (releaseData (requestData (requestData s g r1).2 g r2).2 g r1) g r2) g
      = false := by
  have hs : ∀ e ∈ s, e.generator.val ≠ g.val := (findEntry_eq_none_iff s g).mp hfresh
  have h1 : (requestData s g r1).2 = s ++ [⟨g, [r1], none⟩] :=
    requestData_snd_of_none s g r1 hfresh
  have haddRef : addRef (⟨g, [r1], none⟩ : Entry V R D) r2 = ⟨g, [r1, r2], none⟩ := by
    simp [addRef, Ne.symm hr]
  have h2 : (requestData (requestData s g r1).2 g r2).2 = s ++ [⟨g, [r1, r2], none⟩] := by
    rw [h1, requestData_found s _ g r2 hs rfl, haddRef]
  have hfilter1 : List.filter (fun x => decide (x ≠ r1)) [r1, r2] = [r2] := by
    simp [List.filter, Ne.symm hr]
  have h3 : releaseData (s ++ [(⟨g, [r1, r2], none⟩ : Entry V R D)]) g r1 =
      s ++ [⟨g, [r2], none⟩] := by
    rw [releaseData_found s _ g r1 hs rfl]
    simp [hfilter1, Ne.symm hr]
  have hfilter2 : List.filter (fun x => decide (x ≠ r2)) [r2] = [] := by
    simp [List.filter]
  have h4 : releaseData (s ++ [(⟨g, [r2], none⟩ : Entry V R D)]) g r2 = s := by
    rw [releaseData_found s _ g r2 hs rfl]
    simp [hfilter2]
  refine ⟨refsNonempty_runOp s c hne, ?_, ?_, ?_⟩
  · refine ⟨⟨g, [r1], none⟩, ?_, by simp⟩
    rw [h1]
    exact findEntry_append_singleton s _ g hfresh rfl
  · rw [h2, h3]
    simp only [contains]
    rw [findEntry_append_singleton s _ g hfresh rfl]
    rfl
  · rw [h2, h3, h4]
    simp [contains, hfresh]

/-- Witness for `entry_exists_iff_referenced` at a concrete input. -/
theorem entry_exists_iff_referenced_witness :
    refsNonempty ([] : State Nat Nat Nat) ∧
    findEntry ([] : State Nat Nat Nat) (GenPtr.mk 0 5) = none ∧ (7 : Nat) ≠ 8 ∧
    (refsNonempty (runOp (OpCall.pendingGenerators : OpCall Nat Nat Nat) []).2 ∧
     (∃ e, findEntry (requestData ([] : State Nat Nat Nat) (GenPtr.mk 0 5) 7).2 (GenPtr.mk 0 5)
        = some e ∧ 7 ∈ e.referencingObjects) ∧
     contains (releaseData (requestData (requestData ([] : State Nat Nat Nat) (GenPtr.mk 0 5) 7).2
       (GenPtr.mk 0 5) 8).2 (GenPtr.mk 0 5) 7) (GenPtr.mk 0 5) = true ∧
     contains (releaseData (releaseData (requestData (requestData ([] : State Nat Nat Nat)
       (GenPtr.mk 0 5) 7).2 (GenPtr.mk 0 5) 8).2 (GenPtr.mk 0 5) 7) (GenPtr.mk 0 5) 8)
       (GenPtr.mk 0 5) = false) :=
  ⟨by intro e he; simp at he, rfl, by decide,
    entry_exists_iff_referenced [] OpCall.pendingGenerators (GenPtr.mk 0 5) 7 8
      (by intro e he; simp at he) rfl (by decide)⟩

/-!  ## C6 : `assignData` on a missing generator  -/

/-- C6: `assignData(g, data)` when no value-equal `Entry` exists emits the
diagnostic warning (the returned flag is `true`) and is otherwise a complete
no-op: the state is returned unchanged and `contains(g)` stays `false`. -/
theorem assignData_missing_noop (s : State V R D) (g : GenPtr V) (d : Option D)
    (h : findEntry s g = none) :
    (assignData s g d).1 = s ∧ (assignData s g d).2 = true ∧
    contains (assignData s g d).1 g = false := by
  rw [assignData_of_none s g d h]
  exact ⟨rfl, rfl, by simp [contains, h]⟩

/-- Witness for `assignData_missing_noop` at a concrete input. -/
theorem assignData_missing_noop_witness :
    findEntry [(⟨GenPtr.mk 0 1, [2], none⟩ : Entry Nat Nat Nat)] (GenPtr.mk 5 9) = none ∧
    ((assignData [(⟨GenPtr.mk 0 1, [2], none⟩ : Entry Nat Nat Nat)] (GenPtr.mk 5 9) (some 3)).1
       = [⟨GenPtr.mk 0 1, [2], none⟩] ∧
     (assignData [(⟨GenPtr.mk 0 1, [2], none⟩ : Entry Nat Nat Nat)] (GenPtr.mk 5 9) (some 3)).2
       = true ∧
     contains (assignData [(⟨GenPtr.mk 0 1, [2], none⟩ : Entry Nat Nat Nat)] (GenPtr.mk 5 9)
       (some 3)).1 (GenPtr.mk 5 9) = false) :=
  ⟨by decide, assignData_missing_noop [⟨GenPtr.mk 0 1, [2], none⟩] (GenPtr.mk 5 9) (some 3)
    (by decide)⟩

/-!  ## C7 : requesting the same referencer twice is idempotent  -/

/-- C7: a `requestData(g, r)` that returned `true`, immediately repeated with
the same arguments, returns `false`, leaves the state (and hence the entry's
referencer set) unchanged, and the referencer `r` is stored exactly once. -/
theorem requestData_idempotent_referencer (s : State V R D) (g : GenPtr V) (r : R)
    (h : (requestData s g r).1 = true) :
    (requestData (requestData s g r).2 g r).1 = false ∧
    (requestData (requestData s g r).2 g r).2 = (requestData s g r).2 ∧
    ∃ e, findEntry (requestData s g r).2 g = some e ∧ e.referencingObjects.count r = 1 := by
  have hnone : findEntry s g = none := by
    rw [requestData_fst] at h
    cases hh : findEntry s g
    · rfl
    · rw [hh] at h; simp at h
  have hs := (findEntry_eq_none_iff s g).mp hnone
  have h1 : (requestData s g r).2 = s ++ [⟨g, [r], none⟩] :=
    requestData_snd_of_none s g r hnone
  have haddRef : addRef (⟨g, [r], none⟩ : Entry V R D) r = ⟨g, [r], none⟩ := by
    simp [addRef]
  have h2 : requestData (requestData s g r).2 g r = (false, s ++ [⟨g, [r], none⟩]) := by
    rw [h1, requestData_found s _ g r hs rfl, haddRef]
  refine ⟨by rw [h2], by rw [h2, h1], ?_⟩
  refine ⟨⟨g, [r], none⟩, ?_, by simp⟩
  rw [h1]
  exact findEntry_append_singleton s _ g hnone rfl

/-- Witness for `requestData_idempotent_referencer` at a concrete input. -/
theorem requestData_idempotent_referencer_witness :
    (requestData ([] : State Nat Nat Nat) (GenPtr.mk 0 5) 7).1 = true ∧
    ((requestData (requestData ([] : State Nat Nat Nat) (GenPtr.mk 0 5) 7).2 (GenPtr.mk 0 5) 7).1
       = false ∧
     (requestData (requestData ([] : State Nat Nat Nat) (GenPtr.mk 0 5) 7).2 (GenPtr.mk 0 5) 7).2
       = (requestData ([] : State Nat Nat Nat) (GenPtr.mk 0 5) 7).2 ∧
     ∃ e, findEntry (requestData ([] : State Nat Nat Nat) (GenPtr.mk 0 5) 7).2 (GenPtr.mk 0 5)
       = some e ∧ e.referencingObjects.count 7 = 1) :=
  ⟨by decide, requestData_idempotent_referencer [] (GenPtr.mk 0 5) 7 (by decide)⟩

/-!  ## C8 : operations are total on not-found inputs  -/

/-- C8: on a generator with no value-equal `Entry`, `releaseData` leaves the
cache unchanged, `getData` returns the empty `DataPtr`, and `contains` is
`false`; and `getData` also returns the empty `DataPtr` when an `Entry` exists
whose data is not yet assigned. -/
theorem operations_total_on_missing (s : State V R D) (g g' : GenPtr V) (r : R)
    (e : Entry V R D) (h : findEntry s g = none) (h' : findEntry s g' = some e)
    (hd : e.data = none) :
    releaseData s g r = s ∧ getData s g = none ∧ contains s g = false ∧
    getData s g' = none := by
  refine ⟨releaseData_of_none s g r ((findEntry_eq_none_iff s g).mp h), ?_, ?_, ?_⟩
  · simp [getData, h]
  · simp [contains, h]
  · simp [getData, h', hd]

/-- Witness for `operations_total_on_missing` at a concrete input. -/
theorem operations_total_on_missing_witness :
    findEntry [(⟨GenPtr.mk 0 1, [2], none⟩ : Entry Nat Nat Nat)] (GenPtr.mk 5 9) = none ∧
    findEntry [(⟨GenPtr.mk 0 1, [2], none⟩ : Entry Nat Nat Nat)] (GenPtr.mk 4 1)
      = some ⟨GenPtr.mk 0 1, [2], none⟩ ∧
    (⟨GenPtr.mk 0 1, [2], none⟩ : Entry Nat Nat Nat).data = none ∧
    (releaseData [(⟨GenPtr.mk 0 1, [2], none⟩ : Entry Nat Nat Nat)] (GenPtr.mk 5 9) 3
       = [⟨GenPtr.mk 0 1, [2], none⟩] ∧
     getData [(⟨GenPtr.mk 0 1, [2], none⟩ : Entry Nat Nat Nat)] (GenPtr.mk 5 9) = none ∧
     contains [(⟨GenPtr.mk 0 1, [2], none⟩ : Entry Nat Nat Nat)] (GenPtr.mk 5 9) = false ∧
     getData [(⟨GenPtr.mk 0 1, [2], none⟩ : Entry Nat Nat Nat)] (GenPtr.mk 4 1) = none) :=
  ⟨by decide, by decide, rfl,
    operations_total_on_missing [⟨GenPtr.mk 0 1, [2], none⟩] (GenPtr.mk 5 9) (GenPtr.mk 4 1) 3
      ⟨GenPtr.mk 0 1, [2], none⟩ (by decide) (by decide) rfl⟩

/-!  ## C5 : evolution of an Entry's `data` field

The C++ `assignData` overwrites `entry->data = data` unconditionally, and the
`DataPtr` argument is a shared pointer that may be null: assigning a null
`DataPtr` over previously assigned data puts the entry back into the
data-absent (pending) state.  So the literal claim fails; what does hold is
that, as long as `assignData` is only invoked with non-null data, present data
never becomes absent while its entry exists.  -/

theorem getData_cons (e : Entry V R D) (es : State V R D) (q : GenPtr V) :
    getData (e :: es) q = if e.generator.val = q.val then e.data else getData es q := by
  by_cases h : e.generator.val = q.val <;> simp [getData, findEntry, h]

theorem findEntry_cons_nomatch (e : Entry V R D) (es : State V R D) (q : GenPtr V)
    (he : ¬ e.generator.val = q.val) : findEntry (e :: es) q = findEntry es q := by
  simp [findEntry, he]

theorem getData_isSome_requestData (s : State V R D) (g q : GenPtr V) (r : R)
    (hq : (getData s q).isSome = true) :
    (getData (requestData s g r).2 q).isSome = true := by
  induction s with
  | nil => simp [getData, findEntry] at hq
  | cons e es ih =>
    rw [getData_cons] at hq
    by_cases he : e.generator.val = g.val
    · rw [requestData_cons_match e es g r he, getData_cons, addRef_generator, addRef_data,
        ← getData_cons, getData_cons]
      exact hq
    · rw [requestData_cons_nomatch e es g r he, getData_cons]
      by_cases hq2 : e.generator.val = q.val
      · rw [if_pos hq2]
        rw [if_pos hq2] at hq
        exact hq
      · rw [if_neg hq2]
        rw [if_neg hq2] at hq
        exact ih hq

theorem getData_releaseData (s : State V R D) (g q : GenPtr V) (r : R)
    (hwf : wf s) (hq : (getData s q).isSome = true) :
    contains (releaseData s g r) q = false ∨
    (getData (releaseData s g r) q).isSome = true := by
  induction s with
  | nil => simp [getData, findEntry] at hq
  | cons e es ih =>
    simp only [wf, List.map_cons, List.nodup_cons] at hwf
    obtain ⟨hhead, htail⟩ := hwf
    have hwft : wf es := htail
    rw [getData_cons] at hq
    by_cases he : e.generator.val = g.val
    · rw [releaseData_cons_match e es g r he]
      split
      · by_cases hq2 : e.generator.val = q.val
        · left
          have hnone : findEntry es q = none := by
            rw [findEntry_eq_none_iff]
            intro e' he' heq
            exact hhead (List.mem_map.mpr ⟨e', he', by rw [heq, ← hq2]⟩)
          simp [contains, hnone]
        · right
          rw [if_neg hq2] at hq
          exact hq
      · by_cases hq2 : e.generator.val = q.val
        · right
          rw [getData_cons, if_pos hq2]
          rw [if_pos hq2] at hq
          exact hq
        · rw [if_neg hq2] at hq
          rcases ih hwft hq with hl | hr2
          · left
            simp only [contains] at hl ⊢
            rw [findEntry_cons_nomatch
              { e with referencingObjects :=
                  e.referencingObjects.filter (fun x => decide (x ≠ r)) }
              (releaseData es g r) q hq2]
            exact hl
          · right
            rw [getData_cons, if_neg hq2]
            exact hr2
    · rw [releaseData_cons_nomatch e es g r he]
      by_cases hq2 : e.generator.val = q.val
      · right
        rw [getData_cons, if_pos hq2]
        rw [if_pos hq2] at hq
        exact hq
      · rw [if_neg hq2] at hq
        rcases ih hwft hq with hl | hr2
        · left
          simp only [contains] at hl ⊢
          rw [findEntry_cons_nomatch _ _ _ hq2]
          exact hl
        · right
          rw [getData_cons, if_neg hq2]
          exact hr2

theorem getData_isSome_assignData (s : State V R D) (g q : GenPtr V) (d : D)
    (hq : (getData s q).isSome = true) :
    (getData (assignData s g (some d)).1 q).isSome = true := by
  induction s with
  | nil => simp [getData, findEntry] at hq
  | cons e es ih =>
    rw [getData_cons] at hq
    by_cases he : e.generator.val = g.val
    · rw [assignData_cons_match e es g _ he, getData_cons]
      by_cases hq2 : e.generator.val = q.val
      · rw [if_pos hq2]
        simp
      · rw [if_neg hq2]
        rw [if_neg hq2] at hq
        exact hq
    · rw [assignData_cons_nomatch e es g _ he, getData_cons]
      by_cases hq2 : e.generator.val = q.val
      · rw [if_pos hq2]
        rw [if_pos hq2] at hq
        exact hq
      · rw [if_neg hq2]
        rw [if_neg hq2] at hq
        exact ih hq

/-- C5 counterexample: after `requestData`, `assignData(g, d)` with actual
data makes `getData(g)` present, but a further `assignData(g, DataPtr())`
with a null data pointer puts the very same entry — still existing, as
`contains(g)` shows — back to data-absent: present data is cleared without
the entry being destroyed, refuting the claimed irreversible
`Pending → Ready` transition. -/
theorem assignData_can_clear_data :
    getData ((assignData ((requestData ([] : State Nat Nat Nat) (GenPtr.mk 0 0) 0).2)
        (GenPtr.mk 0 0) (some 1)).1) (GenPtr.mk 0 0) = some 1 ∧
    getData ((assignData ((assignData ((requestData ([] : State Nat Nat Nat) (GenPtr.mk 0 0) 0).2)
        (GenPtr.mk 0 0) (some 1)).1) (GenPtr.mk 0 0) none).1) (GenPtr.mk 0 0) = none ∧
    contains ((assignData ((assignData ((requestData ([] : State Nat Nat Nat) (GenPtr.mk 0 0) 0).2)
        (GenPtr.mk 0 0) (some 1)).1) (GenPtr.mk 0 0) none).1) (GenPtr.mk 0 0) = true := by
  decide

/-- C5 (amended): `assignData` overwrites the stored data with its argument
unconditionally, so the irreversibility only holds for non-null assignments:
whenever every `assignData` call passes actual (non-null) data, a generator
whose data is present keeps it present across `requestData`, `releaseData`
(unless the entry is destroyed outright) and `assignData` on a well-formed
cache. -/
theorem data_present_monotone (s : State V R D) (g q : GenPtr V) (r : R) (d : D)
    (hwf : wf s) (hq : (getData s q).isSome = true) :
    (getData (requestData s g r).2 q).isSome = true ∧
    (contains (releaseData s g r) q = false ∨
      (getData (releaseData s g r) q).isSome = true) ∧
    (getData (assignData s g (some d)).1 q).isSome = true :=
  ⟨getData_isSome_requestData s g q r hq, getData_releaseData s g q r hwf hq,
    getData_isSome_assignData s g q d hq⟩

/-- Witness for `data_present_monotone` at a concrete input. -/
theorem data_present_monotone_witness :
    wf [(⟨GenPtr.mk 0 1, [2], some 4⟩ : Entry Nat Nat Nat)] ∧
    (getData [(⟨GenPtr.mk 0 1, [2], some 4⟩ : Entry Nat Nat Nat)] (GenPtr.mk 9 1)).isSome
      = true ∧
    ((getData (requestData [(⟨GenPtr.mk 0 1, [2], some 4⟩ : Entry Nat Nat Nat)]
        (GenPtr.mk 9 1) 3).2 (GenPtr.mk 9 1)).isSome = true ∧
     (contains (releaseData [(⟨GenPtr.mk 0 1, [2], some 4⟩ : Entry Nat Nat Nat)]
        (GenPtr.mk 9 1) 3) (GenPtr.mk 9 1) = false ∨
      (getData (releaseData [(⟨GenPtr.mk 0 1, [2], some 4⟩ : Entry Nat Nat Nat)]
        (GenPtr.mk 9 1) 3) (GenPtr.mk 9 1)).isSome = true) ∧
     (getData (assignData [(⟨GenPtr.mk 0 1, [2], some 4⟩ : Entry Nat Nat Nat)]
        (GenPtr.mk 9 1) (some 6)).1 (GenPtr.mk 9 1)).isSome = true) :=
  ⟨by simp [wf], by decide,
    data_present_monotone [⟨GenPtr.mk 0 1, [2], some 4⟩] (GenPtr.mk 9 1) (GenPtr.mk 9 1) 3 6
      (by simp [wf]) (by decide)⟩

/-!  ## C4 : `pendingGenerators` lists exactly the not-yet-generated entries  -/

theorem subset_pendingGo (s : State V R D) (ret : List (GenPtr V)) (p : GenPtr V)
    (h : p ∈ ret) : p ∈ pendingGo s ret := by
  induction s generalizing ret with
  | nil => simpa [pendingGo] using h
  | cons e es ih =>
    simp only [pendingGo]
    apply ih
    split
    · exact List.mem_append_left _ h
    · exact h

theorem mem_pendingGo_of_mem : ∀ (s : State V R D) (ret : List (GenPtr V)) (e : Entry V R D),
    e ∈ s → e.data = none → e.generator ∈ pendingGo s ret
  | [], _, _, he, _ => by simp at he
  | e0 :: es, ret, e, he, hd => by
    simp only [pendingGo]
    rcases List.mem_cons.mp he with h1 | h1
    · subst h1
      apply subset_pendingGo
      by_cases hc : e.data = none ∧ e.generator ∉ ret
      · rw [if_pos hc]
        exact List.mem_append_right _ (List.mem_singleton_self _)
      · rw [if_neg hc]
        rcases not_and_or.mp hc with h | h
        · exact absurd hd h
        · exact not_not.mp h
    · exact mem_pendingGo_of_mem es _ e h1 hd

theorem mem_pendingGo_sources : ∀ (s : State V R D) (ret : List (GenPtr V)) (p : GenPtr V),
    p ∈ pendingGo s ret → p ∈ ret ∨ ∃ e ∈ s, e.generator = p ∧ e.data = none
  | [], ret, p, h => by
    simp only [pendingGo] at h
    exact Or.inl h
  | e0 :: es, ret, p, h => by
    simp only [pendingGo] at h
    rcases mem_pendingGo_sources es _ p h with h1 | h1
    · by_cases hc : e0.data = none ∧ e0.generator ∉ ret
      · rw [if_pos hc] at h1
        rcases List.mem_append.mp h1 with h2 | h2
        · exact Or.inl h2
        · right
          exact ⟨e0, List.mem_cons_self _ _, (List.mem_singleton.mp h2).symm, hc.1⟩
      · rw [if_neg hc] at h1
        exact Or.inl h1
    · obtain ⟨e, he, hp, hd⟩ := h1
      exact Or.inr ⟨e, List.mem_cons_of_mem _ he, hp, hd⟩

theorem pendingGo_eq_of_wf : ∀ (s : State V R D) (ret : List (GenPtr V)),
    (∀ e ∈ s, e.data = none → e.generator ∉ ret) →
    s.Pairwise (fun a b => a.generator ≠ b.generator) →
    pendingGo s ret =
      ret ++ (s.filter (fun e => decide (e.data = none))).map (fun e => e.generator)
  | [], ret, _, _ => by simp [pendingGo]
  | e0 :: es, ret, hret, hpw => by
    rw [List.pairwise_cons] at hpw
    obtain ⟨hp1, hp2⟩ := hpw
    simp only [pendingGo]
    by_cases hd : e0.data = none
    · have hnotin : e0.generator ∉ ret := hret e0 (List.mem_cons_self _ _) hd
      rw [if_pos ⟨hd, hnotin⟩]
      rw [pendingGo_eq_of_wf es (ret ++ [e0.generator]) ?_ hp2]
      · rw [List.filter_cons_of_pos (by simp [hd])]
        simp
      · intro e he hde hmem
        rcases List.mem_append.mp hmem with h1 | h1
        · exact hret e (List.mem_cons_of_mem _ he) hde h1
        · exact hp1 e he (List.mem_singleton.mp h1).symm
    · rw [if_neg (by simp [hd])]
      rw [pendingGo_eq_of_wf es ret (fun e he hde => hret e (List.mem_cons_of_mem _ he) hde) hp2]
      rw [List.filter_cons_of_neg (by simp [hd])]

theorem pairwise_generator_ne_of_wf (s : State V R D) (hwf : wf s) :
    s.Pairwise (fun a b => a.generator ≠ b.generator) := by
  have h := List.pairwise_map.mp hwf
  exact h.imp fun hne heq => hne (by rw [heq])

theorem pendingGenerators_eq_of_wf (s : State V R D) (hwf : wf s) :
    pendingGenerators s =
      (s.filter (fun e => decide (e.data = none))).map (fun e => e.generator) := by
  have := pendingGo_eq_of_wf s [] (by simp) (pairwise_generator_ne_of_wf s hwf)
  simpa [pendingGenerators] using this

theorem pendingGenerators_val_pairwise (s : State V R D) (hwf : wf s) :
    (pendingGenerators s).Pairwise (fun p q => p.val ≠ q.val) := by
  rw [pendingGenerators_eq_of_wf s hwf, List.pairwise_map]
  exact (List.pairwise_map.mp hwf).filter _

/-- C4: on a well-formed cache with no value-equal entry for `g`,
`pendingGenerators()` does not list any generator value-equal to `g` before
the creating `requestData(g, r)`, lists `g` right after it (its data is still
absent), no longer lists any generator value-equal to `g` after the matching
`assignData(g, data)`, and never lists two value-equal generators (no
duplicates). -/
theorem pendingGenerators_exactly_pending (s : State V R D) (g : GenPtr V) (r : R) (d : D)
    (hwf : wf s) (hfresh : findEntry s g = none) :
    (∀ p ∈ pendingGenerators s, p.val ≠ g.val) ∧
    g ∈ pendingGenerators (requestData s g r).2 ∧
    (∀ p ∈ pendingGenerators (assignData (requestData s g r).2 g (some d)).1, p.val ≠ g.val) ∧
    (pendingGenerators s).Pairwise (fun p q => p.val ≠ q.val) := by
  have hs := (findEntry_eq_none_iff s g).mp hfresh
  have h1 : (requestData s g r).2 = s ++ [⟨g, [r], none⟩] :=
    requestData_snd_of_none s g r hfresh
  refine ⟨?_, ?_, ?_, pendingGenerators_val_pairwise s hwf⟩
  · intro p hp
    rcases mem_pendingGo_sources s [] p hp with h | h
    · simp at h
    · obtain ⟨e, he, hpe, _⟩ := h
      rw [← hpe]
      exact hs e he
  · rw [h1]
    exact mem_pendingGo_of_mem _ [] ⟨g, [r], none⟩ (by simp) rfl
  · intro p hp
    have h2 : (assignData (requestData s g r).2 g (some d)).1 = s ++ [⟨g, [r], some d⟩] := by
      rw [h1, assignData_found s _ g (some d) hs rfl]
    rw [h2] at hp
    rcases mem_pendingGo_sources _ [] p hp with h | h
    · simp at h
    · obtain ⟨e, he, hpe, hde⟩ := h
      rcases List.mem_append.mp he with h3 | h3
      · rw [← hpe]
        exact hs e h3
      · rw [List.mem_singleton] at h3
        rw [h3] at hde
        simp at hde

/-- Witness for `pendingGenerators_exactly_pending` at a concrete input. -/
theorem pendingGenerators_exactly_pending_witness :
    wf ([] : State Nat Nat Nat) ∧ findEntry ([] : State Nat Nat Nat) (GenPtr.mk 0 5) = none ∧
    ((∀ p ∈ pendingGenerators ([] : State Nat Nat Nat), p.val ≠ (GenPtr.mk 0 5 : GenPtr Nat).val) ∧
     GenPtr.mk 0 5 ∈ pendingGenerators (requestData ([] : State Nat Nat Nat) (GenPtr.mk 0 5) 7).2 ∧
     (∀ p ∈ pendingGenerators (assignData (requestData ([] : State Nat Nat Nat) (GenPtr.mk 0 5) 7).2
        (GenPtr.mk 0 5) (some 4)).1, p.val ≠ (GenPtr.mk 0 5 : GenPtr Nat).val) ∧
     (pendingGenerators ([] : State Nat Nat Nat)).Pairwise (fun p q => p.val ≠ q.val)) :=
  ⟨by simp [wf], rfl,
    pendingGenerators_exactly_pending [] (GenPtr.mk 0 5) 7 4 (by simp [wf]) rfl⟩

/-!  ## C9 : the locking discipline of the public operations

Mutual exclusion itself is outside a shallow functional embedding, but which
member function bodies take the single `m_mutex` is a syntactic fact of the
source, transcribed below.  -/

/-- The public member functions of `GeneratorDataManager`. -/
inductive PublicOp where
  | requestData
  | releaseData
  | getData
  | pendingGenerators
  | assignData
  | contains
deriving DecidableEq

/-- Whether the body of each public member function acquires the single
`m_mutex` for its whole scope, transcribed from the source: `requestData`,
`releaseData`, `getData`, `pendingGenerators` and `assignData` each open with
`QMutexLocker lock(&m_mutex);` (an RAII scope covering the full body and every
exit path), while `contains` calls `findEntry` with no locker at all. -/
def acquiresMutex : PublicOp → Bool
  | .requestData => true
  | .releaseData => true
  | .getData => true
  | .pendingGenerators => true
  | .assignData => true
  | .contains => false

/-- C9 counterexample: the public operation `contains` does not acquire the
cache's mutual-exclusion lock, refuting the claim that every public operation
holds the lock for its full duration. -/
theorem contains_does_not_lock : acquiresMutex PublicOp.contains = false := rfl

/-- C9 (amended): every public operation except `contains` acquires the
single mutual-exclusion lock at entry via an RAII locker, holding it for the
operation's full duration and releasing it on every exit path; `contains`
reads the cache through `findEntry` without taking the lock. -/
theorem all_ops_lock_except_contains (op : PublicOp) (h : op ≠ PublicOp.contains) :
    acquiresMutex op = true := by
  cases op
  case contains => exact absurd rfl h
  all_goals rfl

/-- Witness for `all_ops_lock_except_contains` at a concrete input. -/
theorem all_ops_lock_except_contains_witness :
    PublicOp.requestData ≠ PublicOp.contains ∧
    acquiresMutex PublicOp.requestData = true :=
  ⟨by decide, all_ops_lock_except_contains PublicOp.requestData (by decide)⟩

/-!  ## C10 : the query operations do not change the cache  -/

/-- C10: running `getData`, `pendingGenerators` or `contains` returns the
cache state `m_data` unchanged — every entry, its generator, referencer set
and data are identical before and after the call. -/
theorem queries_leave_state_unchanged (s : State V R D) (g g1 : GenPtr V) :
    (runOp (OpCall.getData g) s).2 = s ∧
    (runOp (OpCall.pendingGenerators : OpCall V R D) s).2 = s ∧
    (runOp (OpCall.contains g1) s).2 = s :=
  ⟨rfl, rfl, rfl⟩

end TextureDataManager
